import Mathlib

/-!
Verification of the KoSpeech feature-extraction utilities
(`utils/feature.py`): the two librosa-based extractors
`get_librosa_melspectrogram` and `get_librosa_mfcc`, and the SpecAugment
transform `spec_augment`.

Shallow embedding conventions:

* A torch tensor / numpy 2-D array is a `Mat`: explicit row and column
  counts plus a total entry function (numpy arrays carry their shape the
  same way).  Entries are rationals, standing for the floats of the code;
  no claim below depends on floating-point rounding.
* Python control flow: a function that can raise is embedded as
  `Except String _`; a Python `return None` is the `Option.none` inside
  a successful `Except.ok`.
* The external libraries (numpy's `memmap`, librosa's `load`, `split`,
  `melspectrogram`, `mfcc`, `amplitude_to_db`) are an abstract
  environment `Env`; their documented output-shape contracts are stated
  as explicit predicates (`MelSpecShape`, `MfccShape`, `DbShape`,
  `SplitOK`) and assumed only where a claim needs them.
* Randomness (`np.random.uniform`, `random.randint`) is passed in as
  explicit draw lists: `spec_augment` takes one `(ℕ × ℕ)` pair of draws
  per mask, so the source's `time_mask_num` is the length of the time
  draw list, and a run of the source corresponds to the embedding
  applied to the draws that run consumed.
-/

/-- A two-dimensional numeric array: shape `(rows, cols)` plus a total
entry function, mirroring a numpy array's shape-plus-buffer layout.
`entry i j` for out-of-range `i, j` is irrelevant to the embedded code
(the code never reads out of range) but keeps the model total. -/
structure Mat where
  rows : ℕ
  cols : ℕ
  entry : ℕ → ℕ → ℚ

/-- Python `feat[t0 : t0 + t, :] = 0` on a time-major matrix: zero every
entry whose row index lies in `[t0, t0 + t)`. -/
def zeroRowSpan (m : Mat) (t0 t : ℕ) : Mat :=
  ⟨m.rows, m.cols, fun i j => if t0 ≤ i ∧ i < t0 + t then 0 else m.entry i j⟩

/-- Python `feat[:, f0 : f0 + f] = 0`: zero every entry whose column
index lies in `[f0, f0 + f)`. -/
def zeroColSpan (m : Mat) (f0 f : ℕ) : Mat :=
  ⟨m.rows, m.cols, fun i j => if f0 ≤ j ∧ j < f0 + f then 0 else m.entry i j⟩

/-- Python `feat[:, ::-1]`: reverse the column axis. -/
def revCols (m : Mat) : Mat :=
  ⟨m.rows, m.cols, fun i j => m.entry i (m.cols - 1 - j)⟩

/-- Python `np.swapaxes(feat, 0, 1)` (and the `np.ascontiguousarray` /
`torch.FloatTensor` wrappers, which do not change shape or values). -/
def swapaxes (m : Mat) : Mat :=
  ⟨m.cols, m.rows, fun i j => m.entry j i⟩

/-- Python `int(np.random.uniform(low=0.0, high=b))`: a uniform float in
`[0, b)` truncated to an integer, hence an integer in `[0, b)` when
`b > 0` and `0` when `b = 0`.  `draw` is the random draw, reduced to the
range the library guarantees. -/
def uniformInt (b : ℕ) (draw : ℕ) : ℕ :=
  if b = 0 then 0 else draw % b

/-- Python `random.randint(a, b)`: a uniform integer in the inclusive
range `[a, b]`; raises `ValueError` when the range is empty (`b < a`).
`draw` is the random draw, reduced into the range. -/
def randint (a b : ℤ) (draw : ℕ) : Except String ℤ :=
  if b < a then .error "ValueError: empty range for randrange()"
  else .ok (a + (draw : ℤ) % (b - a + 1))

/-- The time-mask loop of `spec_augment` (feature.py lines 144-148): for
each iteration draw a width `t = int(np.random.uniform(0, T))`, a start
`t0 = random.randint(0, seq_len - t)`, and zero rows `[t0, t0 + t)`.
One `(ℕ × ℕ)` element of `draws` supplies the two random draws of one
iteration, so `time_mask_num = draws.length`.  `seq_len` is read once
before the loop, as in the source. -/
def timeMaskLoop (seq_len T : ℕ) : List (ℕ × ℕ) → Mat → Except String Mat
  | [], feat => .ok feat
  | (du, dr) :: rest, feat =>
    let t := uniformInt T du
    match randint 0 ((seq_len : ℤ) - (t : ℤ)) dr with
    | .error e => .error e
    | .ok t0 => timeMaskLoop seq_len T rest (zeroRowSpan feat t0.toNat t)

/-- The frequency-mask loop of `spec_augment` (feature.py lines
151-155), symmetric to `timeMaskLoop` on the column axis. -/
def freqMaskLoop (feat_size F : ℕ) : List (ℕ × ℕ) → Mat → Except String Mat
  | [], feat => .ok feat
  | (du, dr) :: rest, feat =>
    let f := uniformInt F du
    match randint 0 ((feat_size : ℤ) - (f : ℤ)) dr with
    | .error e => .error e
    | .ok f0 => freqMaskLoop feat_size F rest (zeroColSpan feat f0.toNat f)

/-- `spec_augment(feat, T, F, time_mask_num, freq_mask_num)`
(feature.py lines 122-157).  `feat_size = feat.size(1)` and
`seq_len = feat.size(0)` are read once at entry; the time masks are
applied first, then the frequency masks.  The mask counts are the
lengths of the two draw lists. -/
def spec_augment (feat : Mat) (T F : ℕ)
    (timeDraws freqDraws : List (ℕ × ℕ)) : Except String Mat :=
  let feat_size := feat.cols
  let seq_len := feat.rows
  match timeMaskLoop seq_len T timeDraws feat with
  | .error e => .error e
  | .ok feat1 => freqMaskLoop feat_size F freqDraws feat1

/-- Observer: the list of `(start, width)` spans actually zeroed by the
time-mask loop of dimension `seq_len`, bound `T`, on the given draws —
including the spans zeroed before a later iteration raises (the source
mutates its argument in place, so those writes happen even on the
raising path). -/
def timeMasksApplied (seq_len T : ℕ) : List (ℕ × ℕ) → List (ℕ × ℕ)
  | [] => []
  | (du, dr) :: rest =>
    let t := uniformInt T du
    match randint 0 ((seq_len : ℤ) - (t : ℤ)) dr with
    | .error _ => []
    | .ok t0 => (t0.toNat, t) :: timeMasksApplied seq_len T rest

/-- Observer: the `(start, width)` spans zeroed by the frequency-mask
loop, symmetric to `timeMasksApplied`. -/
def freqMasksApplied (feat_size F : ℕ) : List (ℕ × ℕ) → List (ℕ × ℕ)
  | [] => []
  | (du, dr) :: rest =>
    let f := uniformInt F du
    match randint 0 ((feat_size : ℤ) - (f : ℤ)) dr with
    | .error _ => []
    | .ok f0 => (f0.toNat, f) :: freqMasksApplied feat_size F rest

/-- Index `i` lies in the half-open span `[p.1, p.1 + p.2)`. -/
def inSpan (i : ℕ) (p : ℕ × ℕ) : Prop :=
  p.1 ≤ i ∧ i < p.1 + p.2

instance (i : ℕ) (p : ℕ × ℕ) : Decidable (inSpan i p) :=
  inferInstanceAs (Decidable (_ ∧ _))

/-- Index `i` is covered by at least one of the spans in `L`. -/
def coveredBy (i : ℕ) (L : List (ℕ × ℕ)) : Prop :=
  ∃ p ∈ L, inSpan i p

instance (i : ℕ) (L : List (ℕ × ℕ)) : Decidable (coveredBy i L) :=
  List.decidableBEx _ L

/-- Python list/array slice `sig[s : e]` (nonnegative indices): drop the
first `s` elements, keep at most `e - s`. -/
def pySlice (sig : List ℚ) (s e : ℕ) : List ℚ :=
  (sig.drop s).take (e - s)

/-- `np.concatenate([signal[start:end] for start, end in intervals])`
(feature.py lines 61 and 114): the non-silent spans glued in order.
(numpy raises on an empty interval list; no claim exercises that corner,
and the model returns the empty signal there.) -/
def concatSpans (sig : List ℚ) : List (ℕ × ℕ) → List ℚ
  | [] => []
  | (s, e) :: rest => pySlice sig s e ++ concatSpans sig rest

/-- The interval-list discipline `librosa.effects.split` documents:
intervals `(s, e)` are in ascending order, non-overlapping, and lie
within `[lo, len]` (`lo` is the accumulator carrying the previous
interval's end). -/
def chainOK : ℕ → List (ℕ × ℕ) → ℕ → Bool
  | _, [], _ => true
  | lo, (s, e) :: rest, len =>
    decide (lo ≤ s) && decide (s ≤ e) && decide (e ≤ len) && chainOK e rest len

/-- The external collaborators of `utils/feature.py`, kept abstract:
* `readPcm` — `np.memmap(filepath, dtype='h', mode='r')`, the 16-bit
  samples of the file; `none` models the exception the `try` block
  catches;
* `loadWav` — `librosa.core.load(filepath, sr=16000)`'s signal; `none`
  models a raised exception (there is no handler on the wav path);
* `split` — `librosa.effects.split(y, top_db)`, the non-silent
  intervals;
* `melspectrogram` — `librosa.feature.melspectrogram(signal, sr,
  n_mels, n_fft, hop_length, window)`, an `n_mels × frames` matrix;
* `amplitude_to_db` — `librosa.amplitude_to_db(feat, ref=np.max)`,
  shape-preserving;
* `mfcc` — `librosa.feature.mfcc(signal, sr, hop_length, n_mfcc,
  n_fft, window)`, an `n_mfcc × frames` matrix. -/
structure Env where
  readPcm : String → Option (List ℤ)
  loadWav : String → Option (List ℚ)
  split : List ℚ → ℕ → List (ℕ × ℕ)
  melspectrogram : List ℚ → ℕ → ℕ → ℕ → ℕ → String → Mat
  amplitude_to_db : Mat → Mat
  mfcc : List ℚ → ℕ → ℕ → ℕ → ℕ → String → Mat

/-- `signal = np.array([float(x) for x in pcm])` (feature.py lines 53
and 106): each 16-bit sample converted to float with no scaling. -/
def pcmSignal (pcm : List ℤ) : List ℚ :=
  pcm.map (fun x => (Int.cast x : ℚ))

/-- The signal-loading stage shared verbatim by both extractors
(feature.py lines 47-57 and 100-110): `pcm` reads a memmap, returning
the `None` sentinel if that raises; `wav` calls `librosa.core.load`
with no handler, so a failure propagates; any other tag raises
`ValueError("Invalid format !!")` before any file access. -/
def loadSignal (env : Env) (filepath format : String) :
    Except String (Option (List ℚ)) :=
  if format = "pcm" then
    match env.readPcm filepath with
    | none => .ok none
    | some pcm => .ok (some (pcmSignal pcm))
  else if format = "wav" then
    match env.loadWav filepath with
    | none => .error "librosa.core.load error"
    | some signal => .ok (some signal)
  else .error "ValueError: Invalid format !!"

/-- `get_librosa_melspectrogram(filepath, n_mels, del_silence,
input_reverse, mel_type, format)` (feature.py lines 19-70): load the
signal, optionally strip silence (`librosa.effects.split` at
`top_db=30`, spans concatenated), compute the mel spectrogram at
`sr=16000, n_fft=400, hop_length=160`, optionally convert to dB,
optionally reverse the time (column) axis, and return the transposed
matrix (time steps × mel channels). -/
def get_librosa_melspectrogram (env : Env) (filepath : String)
    (n_mels : ℕ) (del_silence input_reverse : Bool)
    (mel_type format : String) : Except String (Option Mat) :=
  match loadSignal env filepath format with
  | .error e => .error e
  | .ok none => .ok none
  | .ok (some signal0) =>
    let signal := if del_silence then
        concatSpans signal0 (env.split signal0 30)
      else signal0
    let feat0 := env.melspectrogram signal 16000 n_mels 400 160 "hamming"
    let feat1 := if mel_type = "log_mel" then env.amplitude_to_db feat0
      else feat0
    let feat2 := if input_reverse then revCols feat1 else feat1
    .ok (some (swapaxes feat2))

/-- `get_librosa_mfcc(filepath, n_mfcc, del_silence, input_reverse,
format)` (feature.py lines 73-120): same loading and silence-removal
stages; the librosa call passes the literal `33` as `n_mfcc`
(feature.py line 116), so the `n_mfcc` parameter is never used. -/
def get_librosa_mfcc (env : Env) (filepath : String) (n_mfcc : ℕ)
    (del_silence input_reverse : Bool) (format : String) :
    Except String (Option Mat) :=
  match loadSignal env filepath format with
  | .error e => .error e
  | .ok none => .ok none
  | .ok (some signal0) =>
    let signal := if del_silence then
        concatSpans signal0 (env.split signal0 30)
      else signal0
    let feat0 := env.mfcc signal 16000 160 33 400 "hamming"
    let feat2 := if input_reverse then revCols feat0 else feat0
    .ok (some (swapaxes feat2))

/-- The signal both extractors feed to librosa on a successful pcm read:
the unscaled float samples, silence-stripped when requested. -/
def melSignal (env : Env) (pcm : List ℤ) (del_silence : Bool) : List ℚ :=
  if del_silence then
    concatSpans (pcmSignal pcm) (env.split (pcmSignal pcm) 30)
  else pcmSignal pcm

/-- The raw mel spectrogram the extractor computes on the pcm path. -/
def melRaw (env : Env) (pcm : List ℤ) (n_mels : ℕ) (del_silence : Bool) : Mat :=
  env.melspectrogram (melSignal env pcm del_silence) 16000 n_mels 400 160 "hamming"

/-- The mel spectrogram after the optional dB conversion. -/
def melScaled (env : Env) (pcm : List ℤ) (n_mels : ℕ)
    (del_silence : Bool) (mel_type : String) : Mat :=
  if mel_type = "log_mel" then
    env.amplitude_to_db (melRaw env pcm n_mels del_silence)
  else melRaw env pcm n_mels del_silence

/-- The raw MFCC matrix the extractor computes on the pcm path; note
the hard-coded `33`. -/
def mfccRaw (env : Env) (pcm : List ℤ) (del_silence : Bool) : Mat :=
  env.mfcc (melSignal env pcm del_silence) 16000 160 33 400 "hamming"

/-- Documented shape contract of `librosa.feature.melspectrogram` with
`center=True` (the default the source relies on): an
`n_mels × (1 + len(signal) div hop_length)` matrix. -/
def MelSpecShape (env : Env) : Prop :=
  ∀ (sig : List ℚ) (sr n_mels n_fft hop : ℕ) (w : String),
    (env.melspectrogram sig sr n_mels n_fft hop w).rows = n_mels ∧
    (env.melspectrogram sig sr n_mels n_fft hop w).cols = 1 + sig.length / hop

/-- Documented shape contract of `librosa.amplitude_to_db`: elementwise,
hence shape-preserving. -/
def DbShape (env : Env) : Prop :=
  ∀ m : Mat, (env.amplitude_to_db m).rows = m.rows ∧
    (env.amplitude_to_db m).cols = m.cols

/-- Documented shape contract of `librosa.feature.mfcc`: an
`n_mfcc × (1 + len(signal) div hop_length)` matrix. -/
def MfccShape (env : Env) : Prop :=
  ∀ (sig : List ℚ) (sr hop n_mfcc n_fft : ℕ) (w : String),
    (env.mfcc sig sr hop n_mfcc n_fft w).rows = n_mfcc ∧
    (env.mfcc sig sr hop n_mfcc n_fft w).cols = 1 + sig.length / hop

/-- Documented contract of `librosa.effects.split`: the returned
intervals are ascending, non-overlapping and within the signal's
bounds. -/
def SplitOK (env : Env) : Prop :=
  ∀ (sig : List ℚ) (top_db : ℕ),
    chainOK 0 (env.split sig top_db) sig.length = true

/-- Documented decoding contract of `librosa.core.load` on 16-bit
input: samples are returned as floats normalized into `[-1, 1)` by
dividing each 16-bit integer by 32768 (unlike the pcm path, which keeps
the raw integer values). -/
def librosaWavDecode (raw : List ℤ) : List ℚ :=
  raw.map (fun x => (Int.cast x : ℚ) / 32768)

/-- Example 2×3 feature matrix used by concrete witnesses. -/
def exMat : Mat :=
  ⟨2, 3, fun i j => (i : ℚ) * 3 + (j : ℚ) + 1⟩

/-- Concrete environment used by witnesses: one readable pcm file
("good.pcm", samples `[1000, -2000]`), the matching wav file
("good.wav"), every other path unreadable; the librosa models return
all-zero matrices of the documented shapes and a single full non-silent
interval. -/
def exEnv : Env where
  readPcm := fun p => if p = "good.pcm" then some [1000, -2000] else none
  loadWav := fun p =>
    if p = "good.wav" then some (librosaWavDecode [1000, -2000]) else none
  split := fun sig _ => [(0, sig.length)]
  melspectrogram := fun sig _ n_mels _ hop _ =>
    ⟨n_mels, 1 + sig.length / hop, fun _ _ => 0⟩
  amplitude_to_db := fun m => m
  mfcc := fun sig _ hop n_mfcc _ _ =>
    ⟨n_mfcc, 1 + sig.length / hop, fun _ _ => 0⟩

/-- A successful `randint 0 hi` call returns a value in `[0, hi]`, and
in particular `hi` was nonnegative. -/
theorem randint_ok_bounds {hi : ℤ} {draw : ℕ} {v : ℤ}
    (h : randint 0 hi draw = .ok v) : 0 ≤ v ∧ v ≤ hi := by
  unfold randint at h
  split at h
  · exact absurd h (by simp)
  · next hlt =>
    have hv : 0 + (draw : ℤ) % (hi - 0 + 1) = v := Except.ok.inj h
    have hpos : (0 : ℤ) < hi - 0 + 1 := by omega
    have hmod₁ : 0 ≤ (draw : ℤ) % (hi - 0 + 1) := Int.emod_nonneg _ (by omega)
    have hmod₂ : (draw : ℤ) % (hi - 0 + 1) < hi - 0 + 1 := Int.emod_lt_of_pos _ hpos
    omega

/-- Every span in `timeMasksApplied seq_len T draws` fits inside
`[0, seq_len)`. -/
theorem timeMasksApplied_bounds (seq_len T : ℕ) :
    ∀ draws : List (ℕ × ℕ), ∀ p ∈ timeMasksApplied seq_len T draws,
      p.1 + p.2 ≤ seq_len := by
  intro draws
  induction draws with
  | nil => intro p hp; simp [timeMasksApplied] at hp
  | cons d rest ih =>
    intro p hp
    obtain ⟨du, dr⟩ := d
    unfold timeMasksApplied at hp
    dsimp only at hp
    split at hp
    · simp at hp
    · next t0 hcall =>
      simp only [List.mem_cons] at hp
      rcases hp with hp | hp
      · have hb := randint_ok_bounds hcall
        subst hp
        dsimp only
        omega
      · exact ih p hp

/-- Every span in `freqMasksApplied feat_size F draws` fits inside
`[0, feat_size)`. -/
theorem freqMasksApplied_bounds (feat_size F : ℕ) :
    ∀ draws : List (ℕ × ℕ), ∀ p ∈ freqMasksApplied feat_size F draws,
      p.1 + p.2 ≤ feat_size := by
  intro draws
  induction draws with
  | nil => intro p hp; simp [freqMasksApplied] at hp
  | cons d rest ih =>
    intro p hp
    obtain ⟨du, dr⟩ := d
    unfold freqMasksApplied at hp
    dsimp only at hp
    split at hp
    · simp at hp
    · next f0 hcall =>
      simp only [List.mem_cons] at hp
      rcases hp with hp | hp
      · have hb := randint_ok_bounds hcall
        subst hp
        dsimp only
        omega
      · exact ih p hp

/-- C1: for every feature matrix and every sequence of random draws,
every time-mask span `[t0, t0 + t)` that `spec_augment` zeroes satisfies
`0 ≤ t0` and `t0 + t ≤ feat.rows`, and every frequency-mask span
`[f0, f0 + f)` satisfies `0 ≤ f0` and `f0 + f ≤ feat.cols`, for all
width bounds `T` and `F` — including bounds exceeding the matrix's
dimensions.  (`timeMasksApplied` / `freqMasksApplied` list exactly the
spans the loops zero, spans zeroed before a raising iteration
included; starts are naturals, so `0 ≤ t0` and `0 ≤ f0` hold by
type.) -/
theorem spec_augment_masks_in_bounds (feat : Mat) (T F : ℕ)
    (timeDraws freqDraws : List (ℕ × ℕ)) :
    (∀ p ∈ timeMasksApplied feat.rows T timeDraws, p.1 + p.2 ≤ feat.rows) ∧
    (∀ p ∈ freqMasksApplied feat.cols F freqDraws, p.1 + p.2 ≤ feat.cols) :=
  ⟨timeMasksApplied_bounds feat.rows T timeDraws,
   freqMasksApplied_bounds feat.cols F freqDraws⟩

/-- Witness for C1 at a concrete run: on the 2×3 matrix `exMat` with
`T = 70`, `F = 20` and one draw pair per axis, the masks actually chosen
are applied and each fits in bounds. -/
theorem spec_augment_masks_in_bounds_witness :
    (1, 1) ∈ timeMasksApplied exMat.rows 70 [(1, 1)] ∧
    (1 : ℕ) + 1 ≤ exMat.rows ∧
    (0, 2) ∈ freqMasksApplied exMat.cols 20 [(2, 2)] ∧
    (0 : ℕ) + 2 ≤ exMat.cols := by
  refine ⟨by decide, ?_, by decide, ?_⟩
  · exact (spec_augment_masks_in_bounds exMat 70 20 [(1, 1)] [(2, 2)]).1
      (1, 1) (by decide)
  · exact (spec_augment_masks_in_bounds exMat 70 20 [(1, 1)] [(2, 2)]).2
      (0, 2) (by decide)

/-- C7: with zero masks requested on each axis (empty draw lists — the
loops run zero iterations, so no randomness is consumed),
`spec_augment` returns its argument unchanged. -/
theorem spec_augment_zero_masks_id (feat : Mat) (T F : ℕ) :
    spec_augment feat T F [] [] = .ok feat := rfl

/-- C9: `spec_augment` can raise instead of returning: on a 1×1 matrix
(time dimension 1, smaller than the width bound `T = 70`) there is a
draw (`int(np.random.uniform(0, 70)) = 2`) for which the sampled width
`t = 2` exceeds `feat.size(0) = 1` and `random.randint(0, 1 - 2)` is
called on the empty range `[0, -1]`, raising `ValueError`. -/
theorem spec_augment_width_overflow_raises :
    spec_augment ⟨1, 1, fun _ _ => 5⟩ 70 20 [(2, 0)] [] =
      .error "ValueError: empty range for randrange()" ∧
    (⟨1, 1, fun _ _ => 5⟩ : Mat).rows < 70 := by
  constructor
  · rfl
  · decide

theorem coveredBy_nil (i : ℕ) : ¬ coveredBy i [] := by
  simp [coveredBy]

theorem coveredBy_cons (i : ℕ) (q : ℕ × ℕ) (L : List (ℕ × ℕ)) :
    coveredBy i (q :: L) ↔ inSpan i q ∨ coveredBy i L := by
  simp [coveredBy]

/-- Entry-level characterization of the time-mask loop: on a successful
run it preserves the shape and zeroes exactly the rows covered by the
spans it applied, leaving every other entry unchanged. -/
theorem timeMaskLoop_ok_entry (seq_len T : ℕ) :
    ∀ (draws : List (ℕ × ℕ)) (feat m : Mat),
      timeMaskLoop seq_len T draws feat = .ok m →
      m.rows = feat.rows ∧ m.cols = feat.cols ∧
      ∀ i j, m.entry i j =
        if coveredBy i (timeMasksApplied seq_len T draws) then 0
        else feat.entry i j := by
  intro draws
  induction draws with
  | nil =>
    intro feat m h
    have hm : feat = m := Except.ok.inj h
    subst hm
    refine ⟨rfl, rfl, ?_⟩
    intro i j
    simp [timeMasksApplied, coveredBy_nil]
  | cons d rest ih =>
    intro feat m h
    obtain ⟨du, dr⟩ := d
    unfold timeMaskLoop at h
    dsimp only at h
    split at h
    · exact absurd h (by simp)
    · next t0 hcall =>
      have hrec := ih (zeroRowSpan feat t0.toNat (uniformInt T du)) m h
      have hm : timeMasksApplied seq_len T ((du, dr) :: rest) =
          (t0.toNat, uniformInt T du) :: timeMasksApplied seq_len T rest := by
        simp only [timeMasksApplied]
        rw [hcall]
      refine ⟨hrec.1, hrec.2.1, ?_⟩
      intro i j
      rw [hrec.2.2 i j, hm]
      have hcons := coveredBy_cons i (t0.toNat, uniformInt T du)
        (timeMasksApplied seq_len T rest)
      by_cases h2 : coveredBy i (timeMasksApplied seq_len T rest)
      · rw [if_pos h2, if_pos (hcons.mpr (Or.inr h2))]
      · rw [if_neg h2]
        dsimp only [zeroRowSpan]
        by_cases h1 : inSpan i (t0.toNat, uniformInt T du)
        · rw [if_pos (hcons.mpr (Or.inl h1))]
          exact if_pos h1
        · rw [if_neg (fun hc => (hcons.mp hc).elim h1 h2)]
          exact if_neg h1

/-- Entry-level characterization of the frequency-mask loop, symmetric
to `timeMaskLoop_ok_entry` on the column axis. -/
theorem freqMaskLoop_ok_entry (feat_size F : ℕ) :
    ∀ (draws : List (ℕ × ℕ)) (feat m : Mat),
      freqMaskLoop feat_size F draws feat = .ok m →
      m.rows = feat.rows ∧ m.cols = feat.cols ∧
      ∀ i j, m.entry i j =
        if coveredBy j (freqMasksApplied feat_size F draws) then 0
        else feat.entry i j := by
  intro draws
  induction draws with
  | nil =>
    intro feat m h
    have hm : feat = m := Except.ok.inj h
    subst hm
    refine ⟨rfl, rfl, ?_⟩
    intro i j
    simp [freqMasksApplied, coveredBy_nil]
  | cons d rest ih =>
    intro feat m h
    obtain ⟨du, dr⟩ := d
    unfold freqMaskLoop at h
    dsimp only at h
    split at h
    · exact absurd h (by simp)
    · next f0 hcall =>
      have hrec := ih (zeroColSpan feat f0.toNat (uniformInt F du)) m h
      have hm : freqMasksApplied feat_size F ((du, dr) :: rest) =
          (f0.toNat, uniformInt F du) :: freqMasksApplied feat_size F rest := by
        simp only [freqMasksApplied]
        rw [hcall]
      refine ⟨hrec.1, hrec.2.1, ?_⟩
      intro i j
      rw [hrec.2.2 i j, hm]
      have hcons := coveredBy_cons j (f0.toNat, uniformInt F du)
        (freqMasksApplied feat_size F rest)
      by_cases h2 : coveredBy j (freqMasksApplied feat_size F rest)
      · rw [if_pos h2, if_pos (hcons.mpr (Or.inr h2))]
      · rw [if_neg h2]
        dsimp only [zeroColSpan]
        by_cases h1 : inSpan j (f0.toNat, uniformInt F du)
        · rw [if_pos (hcons.mpr (Or.inl h1))]
          exact if_pos h1
        · rw [if_neg (fun hc => (hcons.mp hc).elim h1 h2)]
          exact if_neg h1

/-- C8: whenever `spec_augment` returns, the result has the input's
shape, every entry whose row is covered by a chosen time mask or whose
column is covered by a chosen frequency mask is exactly zero, and every
entry covered by neither keeps its original value. -/
theorem spec_augment_frame_effect (feat : Mat) (T F : ℕ)
    (timeDraws freqDraws : List (ℕ × ℕ)) (m : Mat)
    (h : spec_augment feat T F timeDraws freqDraws = .ok m) :
    m.rows = feat.rows ∧ m.cols = feat.cols ∧
    ∀ i j, m.entry i j =
      if coveredBy i (timeMasksApplied feat.rows T timeDraws) ∨
         coveredBy j (freqMasksApplied feat.cols F freqDraws)
      then 0 else feat.entry i j := by
  unfold spec_augment at h
  dsimp only at h
  split at h
  · exact absurd h (by simp)
  · next feat1 hcall1 =>
    have ht := timeMaskLoop_ok_entry feat.rows T timeDraws feat feat1 hcall1
    have hf := freqMaskLoop_ok_entry feat.cols F freqDraws feat1 m h
    refine ⟨hf.1.trans ht.1, hf.2.1.trans ht.2.1, ?_⟩
    intro i j
    rw [hf.2.2 i j, ht.2.2 i j]
    by_cases h1 : coveredBy i (timeMasksApplied feat.rows T timeDraws) <;>
      by_cases h2 : coveredBy j (freqMasksApplied feat.cols F freqDraws) <;>
        simp [h1, h2]

/-- Witness for C8 at a concrete run: `spec_augment` on the 2×3 matrix
`exMat` with one time draw and no frequency draws returns
`zeroRowSpan exMat 1 1`, whose shape and entry `(0, 0)` satisfy the
frame-effect characterization. -/
theorem spec_augment_frame_effect_witness :
    (zeroRowSpan exMat 1 1).rows = exMat.rows ∧
    (zeroRowSpan exMat 1 1).entry 0 0 =
      if coveredBy 0 (timeMasksApplied exMat.rows 70 [(1, 1)]) ∨
         coveredBy 0 (freqMasksApplied exMat.cols 20 [])
      then 0 else exMat.entry 0 0 := by
  have h := spec_augment_frame_effect exMat 70 20 [(1, 1)] []
    (zeroRowSpan exMat 1 1) rfl
  exact ⟨h.1, h.2.2 0 0⟩

/-- On the pcm path a readable file yields the unscaled samples. -/
theorem loadSignal_pcm_ok (env : Env) (filepath : String) (pcm : List ℤ)
    (hp : env.readPcm filepath = some pcm) :
    loadSignal env filepath "pcm" = .ok (some (pcmSignal pcm)) := by
  have h0 : loadSignal env filepath "pcm" =
      match env.readPcm filepath with
      | none => .ok none
      | some pcm => .ok (some (pcmSignal pcm)) := rfl
  rw [h0, hp]

/-- On the pcm path an unreadable file yields the `None` sentinel. -/
theorem loadSignal_pcm_fail (env : Env) (filepath : String)
    (hp : env.readPcm filepath = none) :
    loadSignal env filepath "pcm" = .ok none := by
  have h0 : loadSignal env filepath "pcm" =
      match env.readPcm filepath with
      | none => .ok none
      | some pcm => .ok (some (pcmSignal pcm)) := rfl
  rw [h0, hp]

/-- On the wav path a successful load yields librosa's signal. -/
theorem loadSignal_wav_ok (env : Env) (filepath : String) (signal : List ℚ)
    (hw : env.loadWav filepath = some signal) :
    loadSignal env filepath "wav" = .ok (some signal) := by
  have h0 : loadSignal env filepath "wav" =
      match env.loadWav filepath with
      | none => .error "librosa.core.load error"
      | some signal => .ok (some signal) := rfl
  rw [h0, hw]

/-- On the wav path a failed load propagates as an exception. -/
theorem loadSignal_wav_fail (env : Env) (filepath : String)
    (hw : env.loadWav filepath = none) :
    loadSignal env filepath "wav" = .error "librosa.core.load error" := by
  have h0 : loadSignal env filepath "wav" =
      match env.loadWav filepath with
      | none => .error "librosa.core.load error"
      | some signal => .ok (some signal) := rfl
  rw [h0, hw]

/-- Any format tag other than pcm and wav raises `ValueError`. -/
theorem loadSignal_invalid (env : Env) (filepath format : String)
    (hpcm : format ≠ "pcm") (hwav : format ≠ "wav") :
    loadSignal env filepath format = .error "ValueError: Invalid format !!" := by
  unfold loadSignal
  rw [if_neg hpcm, if_neg hwav]

/-- Normal form of the mel extractor on a readable pcm file. -/
theorem mel_pcm_eq (env : Env) (filepath : String) (pcm : List ℤ)
    (hp : env.readPcm filepath = some pcm) (n_mels : ℕ)
    (del_silence input_reverse : Bool) (mel_type : String) :
    get_librosa_melspectrogram env filepath n_mels del_silence
        input_reverse mel_type "pcm" =
      .ok (some (swapaxes (if input_reverse then
          revCols (melScaled env pcm n_mels del_silence mel_type)
        else melScaled env pcm n_mels del_silence mel_type))) := by
  unfold get_librosa_melspectrogram
  rw [loadSignal_pcm_ok env filepath pcm hp]
  rfl

/-- Normal form of the MFCC extractor on a readable pcm file; the
`n_mfcc` argument does not occur on the right-hand side. -/
theorem mfcc_pcm_eq (env : Env) (filepath : String) (pcm : List ℤ)
    (hp : env.readPcm filepath = some pcm) (n_mfcc : ℕ)
    (del_silence input_reverse : Bool) :
    get_librosa_mfcc env filepath n_mfcc del_silence input_reverse "pcm" =
      .ok (some (swapaxes (if input_reverse then
          revCols (mfccRaw env pcm del_silence)
        else mfccRaw env pcm del_silence))) := by
  unfold get_librosa_mfcc
  rw [loadSignal_pcm_ok env filepath pcm hp]
  rfl

theorem swapaxes_if_rows (X : Mat) (b : Bool) :
    (swapaxes (if b then revCols X else X)).rows = X.cols := by
  cases b <;> rfl

theorem swapaxes_if_cols (X : Mat) (b : Bool) :
    (swapaxes (if b then revCols X else X)).cols = X.rows := by
  cases b <;> rfl

theorem melScaled_rows (env : Env) (hshape : MelSpecShape env)
    (hdb : DbShape env) (pcm : List ℤ) (n_mels : ℕ)
    (del_silence : Bool) (mel_type : String) :
    (melScaled env pcm n_mels del_silence mel_type).rows = n_mels := by
  unfold melScaled melRaw
  split
  · rw [(hdb _).1]
    exact (hshape _ _ _ _ _ _).1
  · exact (hshape _ _ _ _ _ _).1

theorem melScaled_cols (env : Env) (hshape : MelSpecShape env)
    (hdb : DbShape env) (pcm : List ℤ) (n_mels : ℕ)
    (del_silence : Bool) (mel_type : String) :
    (melScaled env pcm n_mels del_silence mel_type).cols =
      1 + (melSignal env pcm del_silence).length / 160 := by
  unfold melScaled melRaw
  split
  · rw [(hdb _).2]
    exact (hshape _ _ _ _ _ _).2
  · exact (hshape _ _ _ _ _ _).2

theorem exEnv_melspec_shape : MelSpecShape exEnv :=
  fun _ _ _ _ _ _ => ⟨rfl, rfl⟩

theorem exEnv_db_shape : DbShape exEnv :=
  fun _ => ⟨rfl, rfl⟩

theorem exEnv_mfcc_shape : MfccShape exEnv :=
  fun _ _ _ _ _ _ => ⟨rfl, rfl⟩

theorem exEnv_split_ok : SplitOK exEnv := by
  intro sig top_db
  simp [exEnv, chainOK]

/-- If the intervals obey the split discipline over `[lo, len]`, the
concatenated spans are no longer than that region. -/
theorem concatSpans_length_le (sig : List ℚ) :
    ∀ (ivs : List (ℕ × ℕ)) (lo : ℕ), lo ≤ sig.length →
      chainOK lo ivs sig.length = true →
      (concatSpans sig ivs).length + lo ≤ sig.length := by
  intro ivs
  induction ivs with
  | nil =>
    intro lo hlo _
    simpa [concatSpans] using hlo
  | cons p rest ih =>
    intro lo hlo hc
    obtain ⟨s, e⟩ := p
    simp only [chainOK, Bool.and_eq_true, decide_eq_true_eq] at hc
    obtain ⟨⟨⟨hlos, hse⟩, helen⟩, hrest⟩ := hc
    have hih := ih e helen hrest
    simp only [concatSpans, List.length_append, pySlice, List.length_take,
      List.length_drop]
    omega

/-- C4: for any format tag other than `pcm` and `wav`, both extractors
raise `ValueError` at once: the result is the invalid-format error for
every environment whatsoever, so neither the file contents nor the
silence splitter nor the feature library can influence it — nothing is
read or computed before the error. -/
theorem invalid_format_raises (env : Env) (filepath : String)
    (n_mels n_mfcc : ℕ) (del_silence input_reverse : Bool)
    (mel_type format : String)
    (hpcm : format ≠ "pcm") (hwav : format ≠ "wav") :
    get_librosa_melspectrogram env filepath n_mels del_silence
        input_reverse mel_type format = .error "ValueError: Invalid format !!" ∧
    get_librosa_mfcc env filepath n_mfcc del_silence input_reverse format =
      .error "ValueError: Invalid format !!" := by
  have h := loadSignal_invalid env filepath format hpcm hwav
  constructor
  · unfold get_librosa_melspectrogram
    rw [h]
  · unfold get_librosa_mfcc
    rw [h]

/-- Witness for C4 with the concrete tag "flac". -/
theorem invalid_format_raises_witness :
    get_librosa_melspectrogram exEnv "x" 80 false true "log_mel" "flac" =
      .error "ValueError: Invalid format !!" ∧
    get_librosa_mfcc exEnv "x" 33 false true "flac" =
      .error "ValueError: Invalid format !!" :=
  invalid_format_raises exEnv "x" 80 33 false true "log_mel" "flac"
    (by decide) (by decide)

/-- C3: a pcm read failure makes both extractors return the `None`
sentinel without raising, while a wav load failure propagates out of
both extractors as an exception — given a bad file, the extractors
raise exactly when the format is `wav`. -/
theorem read_failure_policy (env : Env) (filepath : String)
    (n_mels n_mfcc : ℕ) (del_silence input_reverse : Bool)
    (mel_type : String) :
    (env.readPcm filepath = none →
      get_librosa_melspectrogram env filepath n_mels del_silence
          input_reverse mel_type "pcm" = .ok none ∧
      get_librosa_mfcc env filepath n_mfcc del_silence input_reverse "pcm" =
        .ok none) ∧
    (env.loadWav filepath = none →
      get_librosa_melspectrogram env filepath n_mels del_silence
          input_reverse mel_type "wav" = .error "librosa.core.load error" ∧
      get_librosa_mfcc env filepath n_mfcc del_silence input_reverse "wav" =
        .error "librosa.core.load error") := by
  constructor
  · intro h
    have h0 := loadSignal_pcm_fail env filepath h
    constructor
    · unfold get_librosa_melspectrogram
      rw [h0]
    · unfold get_librosa_mfcc
      rw [h0]
  · intro h
    have h0 := loadSignal_wav_fail env filepath h
    constructor
    · unfold get_librosa_melspectrogram
      rw [h0]
    · unfold get_librosa_mfcc
      rw [h0]

/-- Witness for C3 at the unreadable path "bad" of `exEnv`. -/
theorem read_failure_policy_witness :
    (get_librosa_melspectrogram exEnv "bad" 80 false true "log_mel" "pcm" =
        .ok none ∧
     get_librosa_mfcc exEnv "bad" 33 false true "pcm" = .ok none) ∧
    (get_librosa_melspectrogram exEnv "bad" 80 false true "log_mel" "wav" =
        .error "librosa.core.load error" ∧
     get_librosa_mfcc exEnv "bad" 33 false true "wav" =
        .error "librosa.core.load error") := by
  have h := read_failure_policy exEnv "bad" 80 33 false true "log_mel"
  exact ⟨h.1 rfl, h.2 rfl⟩

/-- C2: `get_librosa_mfcc` passes the literal 33 to librosa and never
reads its `n_mfcc` argument: on a readable pcm input the returned
matrix has exactly 33 coefficient channels whatever `n_mfcc` was, and
the whole result coincides with the call at any other `n_mfcc`. -/
theorem mfcc_channels_fixed_33 (env : Env) (hshape : MfccShape env)
    (filepath : String) (pcm : List ℤ)
    (hp : env.readPcm filepath = some pcm) (n_mfcc n_mfcc2 : ℕ)
    (del_silence input_reverse : Bool) (m : Mat)
    (hm : get_librosa_mfcc env filepath n_mfcc del_silence
        input_reverse "pcm" = .ok (some m)) :
    m.cols = 33 ∧
    get_librosa_mfcc env filepath n_mfcc del_silence input_reverse "pcm" =
      get_librosa_mfcc env filepath n_mfcc2 del_silence input_reverse "pcm" := by
  refine ⟨?_, rfl⟩
  have he := (mfcc_pcm_eq env filepath pcm hp n_mfcc
    del_silence input_reverse).symm.trans hm
  have hmm : swapaxes (if input_reverse then
      revCols (mfccRaw env pcm del_silence)
    else mfccRaw env pcm del_silence) = m := by
    simpa using he
  rw [← hmm, swapaxes_if_cols]
  exact (hshape _ _ _ _ _ _).1

/-- Witness for C2: concrete calls at `n_mfcc = 90` and `n_mfcc = 7`
on the readable file of `exEnv` give 33 channels and equal results. -/
theorem mfcc_channels_fixed_33_witness :
    (swapaxes (revCols (mfccRaw exEnv [1000, -2000] false))).cols = 33 ∧
    get_librosa_mfcc exEnv "good.pcm" 90 false true "pcm" =
      get_librosa_mfcc exEnv "good.pcm" 7 false true "pcm" := by
  have h := mfcc_channels_fixed_33 exEnv exEnv_mfcc_shape "good.pcm"
    [1000, -2000] rfl 90 7 false true
    (swapaxes (revCols (mfccRaw exEnv [1000, -2000] false)))
    (mfcc_pcm_eq exEnv "good.pcm" [1000, -2000] rfl 90 false true)
  exact h

/-- C5: on a readable pcm input the mel extractor returns a matrix with
exactly `n_mels` feature channels, and the `input_reverse=True` matrix
is the `input_reverse=False` matrix with its time steps (rows)
reversed, all other arguments equal. -/
theorem mel_channels_and_time_reverse (env : Env)
    (hshape : MelSpecShape env) (hdb : DbShape env)
    (filepath : String) (pcm : List ℤ)
    (hp : env.readPcm filepath = some pcm) (n_mels : ℕ)
    (del_silence : Bool) (mel_type : String) (mr mn : Mat)
    (hmr : get_librosa_melspectrogram env filepath n_mels del_silence
        true mel_type "pcm" = .ok (some mr))
    (hmn : get_librosa_melspectrogram env filepath n_mels del_silence
        false mel_type "pcm" = .ok (some mn))
    (i j : ℕ) :
    mr.cols = n_mels ∧ mn.cols = n_mels ∧ mr.rows = mn.rows ∧
    mr.entry i j = mn.entry (mn.rows - 1 - i) j := by
  have her := (mel_pcm_eq env filepath pcm hp n_mels del_silence
    true mel_type).symm.trans hmr
  have hen := (mel_pcm_eq env filepath pcm hp n_mels del_silence
    false mel_type).symm.trans hmn
  have hr : swapaxes (revCols (melScaled env pcm n_mels del_silence mel_type)) =
      mr := by simpa using her
  have hn : swapaxes (melScaled env pcm n_mels del_silence mel_type) = mn := by
    simpa using hen
  subst hr hn
  exact ⟨melScaled_rows env hshape hdb pcm n_mels del_silence mel_type,
    melScaled_rows env hshape hdb pcm n_mels del_silence mel_type, rfl, rfl⟩

/-- Witness for C5 on the concrete environment: the two concrete calls
return, the channel counts are 4, and entry `(0, 0)` of the reversed
result matches the last time step of the non-reversed one. -/
theorem mel_channels_and_time_reverse_witness :
    (swapaxes (revCols (melScaled exEnv [1000, -2000] 4 false "log_mel"))).cols = 4 ∧
    (swapaxes (melScaled exEnv [1000, -2000] 4 false "log_mel")).cols = 4 ∧
    (swapaxes (revCols (melScaled exEnv [1000, -2000] 4 false "log_mel"))).rows =
      (swapaxes (melScaled exEnv [1000, -2000] 4 false "log_mel")).rows ∧
    (swapaxes (revCols (melScaled exEnv [1000, -2000] 4 false "log_mel"))).entry 0 0 =
      (swapaxes (melScaled exEnv [1000, -2000] 4 false "log_mel")).entry
        ((swapaxes (melScaled exEnv [1000, -2000] 4 false "log_mel")).rows - 1 - 0) 0 :=
  mel_channels_and_time_reverse exEnv exEnv_melspec_shape exEnv_db_shape
    "good.pcm" [1000, -2000] rfl 4 false "log_mel"
    (swapaxes (revCols (melScaled exEnv [1000, -2000] 4 false "log_mel")))
    (swapaxes (melScaled exEnv [1000, -2000] 4 false "log_mel"))
    (mel_pcm_eq exEnv "good.pcm" [1000, -2000] rfl 4 false true "log_mel")
    (mel_pcm_eq exEnv "good.pcm" [1000, -2000] rfl 4 false false "log_mel")
    0 0

/-- C6: with `del_silence=True` the extractor computes its features
from the in-order concatenation of the non-silent spans, and the
resulting time dimension is at most the time dimension obtained
without silence removal. -/
theorem del_silence_time_dim_le (env : Env)
    (hshape : MelSpecShape env) (hdb : DbShape env) (hsplit : SplitOK env)
    (filepath : String) (pcm : List ℤ)
    (hp : env.readPcm filepath = some pcm) (n_mels : ℕ)
    (input_reverse : Bool) (mel_type : String) (md mf : Mat)
    (hmd : get_librosa_melspectrogram env filepath n_mels true
        input_reverse mel_type "pcm" = .ok (some md))
    (hmf : get_librosa_melspectrogram env filepath n_mels false
        input_reverse mel_type "pcm" = .ok (some mf)) :
    melSignal env pcm true =
      concatSpans (pcmSignal pcm) (env.split (pcmSignal pcm) 30) ∧
    md.rows = 1 + (melSignal env pcm true).length / 160 ∧
    mf.rows = 1 + (pcmSignal pcm).length / 160 ∧
    md.rows ≤ mf.rows := by
  have hed := (mel_pcm_eq env filepath pcm hp n_mels true
    input_reverse mel_type).symm.trans hmd
  have hef := (mel_pcm_eq env filepath pcm hp n_mels false
    input_reverse mel_type).symm.trans hmf
  have hd2 : swapaxes (if input_reverse then
      revCols (melScaled env pcm n_mels true mel_type)
    else melScaled env pcm n_mels true mel_type) = md := by simpa using hed
  have hf2 : swapaxes (if input_reverse then
      revCols (melScaled env pcm n_mels false mel_type)
    else melScaled env pcm n_mels false mel_type) = mf := by simpa using hef
  subst hd2 hf2
  have hrowd := (swapaxes_if_rows (melScaled env pcm n_mels true mel_type)
    input_reverse).trans (melScaled_cols env hshape hdb pcm n_mels true mel_type)
  have hrowf := (swapaxes_if_rows (melScaled env pcm n_mels false mel_type)
    input_reverse).trans (melScaled_cols env hshape hdb pcm n_mels false mel_type)
  have hlen : (melSignal env pcm true).length ≤ (pcmSignal pcm).length := by
    have hc := concatSpans_length_le (pcmSignal pcm)
      (env.split (pcmSignal pcm) 30) 0 (Nat.zero_le _) (hsplit (pcmSignal pcm) 30)
    simpa [melSignal] using hc
  have hms : (melSignal env pcm false).length = (pcmSignal pcm).length := rfl
  refine ⟨rfl, hrowd, hrowf, ?_⟩
  rw [hrowd, hrowf]
  omega

/-- Witness for C6 on the concrete environment (where the splitter
returns the full interval, so the two time dimensions coincide). -/
theorem del_silence_time_dim_le_witness :
    melSignal exEnv [1000, -2000] true =
      concatSpans (pcmSignal [1000, -2000])
        (exEnv.split (pcmSignal [1000, -2000]) 30) ∧
    (swapaxes (melScaled exEnv [1000, -2000] 4 true "log_mel")).rows =
      1 + (melSignal exEnv [1000, -2000] true).length / 160 ∧
    (swapaxes (melScaled exEnv [1000, -2000] 4 false "log_mel")).rows =
      1 + (pcmSignal [1000, -2000]).length / 160 ∧
    (swapaxes (melScaled exEnv [1000, -2000] 4 true "log_mel")).rows ≤
      (swapaxes (melScaled exEnv [1000, -2000] 4 false "log_mel")).rows :=
  del_silence_time_dim_le exEnv exEnv_melspec_shape exEnv_db_shape
    exEnv_split_ok "good.pcm" [1000, -2000] rfl 4 false "log_mel"
    (swapaxes (melScaled exEnv [1000, -2000] 4 true "log_mel"))
    (swapaxes (melScaled exEnv [1000, -2000] 4 false "log_mel"))
    (mel_pcm_eq exEnv "good.pcm" [1000, -2000] rfl 4 true false "log_mel")
    (mel_pcm_eq exEnv "good.pcm" [1000, -2000] rfl 4 false false "log_mel")

/-- C10: on the pcm path the signal handed to feature computation is
the file's 16-bit integers cast to float with no scaling — sample `i`
equals integer `i`, values ranging over `[-32768, 32767]` — while the
wav path (librosa's documented decoding) yields the same samples
divided by 32768, so identical audio content stored as pcm versus wav
feeds differently scaled signals into the feature computation. -/
theorem pcm_unscaled_vs_wav_normalized (env : Env) (p q : String)
    (raw : List ℤ) (hp : env.readPcm p = some raw)
    (hw : env.loadWav q = some (librosaWavDecode raw))
    (hrange : ∀ x ∈ raw, -32768 ≤ x ∧ x ≤ 32767) :
    loadSignal env p "pcm" = .ok (some (pcmSignal raw)) ∧
    (∀ i, i < raw.length →
      (pcmSignal raw).getD i 0 = ((raw.getD i 0 : ℤ) : ℚ)) ∧
    (∀ s ∈ pcmSignal raw, -32768 ≤ s ∧ s ≤ 32767) ∧
    loadSignal env q "wav" = .ok (some (librosaWavDecode raw)) ∧
    (∀ i, i < raw.length → raw.getD i 0 ≠ 0 →
      (pcmSignal raw).getD i 0 ≠ (librosaWavDecode raw).getD i 0) := by
  refine ⟨loadSignal_pcm_ok env p raw hp, ?_, ?_,
    loadSignal_wav_ok env q _ hw, ?_⟩
  · intro i hi
    have hi1 : i < (pcmSignal raw).length := by
      simpa only [pcmSignal, List.length_map] using hi
    rw [List.getD_eq_getElem _ _ hi1, List.getD_eq_getElem _ _ hi]
    simp only [pcmSignal, List.getElem_map]
  · intro s hs
    simp only [pcmSignal, List.mem_map] at hs
    obtain ⟨x, hx, rfl⟩ := hs
    have hb := hrange x hx
    exact ⟨by exact_mod_cast hb.1, by exact_mod_cast hb.2⟩
  · intro i hi hne
    have hi1 : i < (pcmSignal raw).length := by
      simpa only [pcmSignal, List.length_map] using hi
    have hi2 : i < (librosaWavDecode raw).length := by
      simpa only [librosaWavDecode, List.length_map] using hi
    rw [List.getD_eq_getElem _ _ hi1, List.getD_eq_getElem _ _ hi2]
    simp only [pcmSignal, librosaWavDecode, List.getElem_map]
    intro heq
    apply hne
    have h0 : ((raw[i] : ℤ) : ℚ) = 0 := by linarith
    have h1 : raw[i] = 0 := by exact_mod_cast h0
    rw [List.getD_eq_getElem _ _ hi]
    exact h1

/-- Witness for C10 at the concrete samples `[1000, -2000]`. -/
theorem pcm_unscaled_vs_wav_normalized_witness :
    loadSignal exEnv "good.pcm" "pcm" = .ok (some (pcmSignal [1000, -2000])) ∧
    (pcmSignal [1000, -2000]).getD 0 0 ≠
      (librosaWavDecode [1000, -2000]).getD 0 0 := by
  have h := pcm_unscaled_vs_wav_normalized exEnv "good.pcm" "good.wav"
    [1000, -2000] rfl rfl (by decide)
  exact ⟨h.1, h.2.2.2.2 0 (by decide) (by decide)⟩
